import Mathlib

set_option maxRecDepth 8000

/-!
Shallow embedding of the signed-item core of the Irys/Bundlr Rust SDK:
the signer registry (`src/index.rs`), the item serializer/parser
(`src/transaction/bundlr.rs`), the deep-hash transcript
(`src/deep_hash.rs`, `src/deep_hash_sync.rs`), the tag codec
(`src/tags.rs` over avro-rs), the multi-Aptos verifier
(`src/signers/aptos.rs`), the typed-Ethereum signer constants
(`src/signers/typed_ethereum.rs`) and `read_offset` (`src/utils/mod.rs`).

Byte buffers are `List UInt8`.  Rust machine integers are modelled as
`Nat` with explicit truncation where the source truncates.  Fallible
Rust code returns `PResult`, which distinguishes a normal `Result`
(`ok`/`err`) from a Rust panic (`panicked`, produced by out-of-range
slice indexing and by explicit `panic!` calls in the source).
SHA-384 (an openssl primitive, external to the repository) is an
uninterpreted parameter `sha` of the deep-hash functions.
-/

/-- The error enum `BundlrError` of `src/error.rs` (the variants the core
paths can produce; payloads kept where the variant carries a string). -/
inductive BundlrError : Type where
  | invalidSignerType
  | invalidPresenceByte (b : String)
  | noBytesLeft
  | invalidTagEncoding
  | invalidSignature
  | noSignature
  | invalidDataType
  | bytesError (s : String)
  | typeParseError (s : String)
  | eD25519Error
  | unknown (s : String)
  | unsupported (s : String)
  | ioError
  deriving DecidableEq, Repr

/-- Outcome of running a piece of Rust code that returns
`Result<α, BundlrError>` but may also panic. -/
inductive PResult (α : Type) : Type where
  | ok (a : α)
  | err (e : BundlrError)
  | panicked
  deriving DecidableEq, Repr

def PResult.bind {α β : Type} : PResult α → (α → PResult β) → PResult β
  | .ok a, f => f a
  | .err e, _ => .err e
  | .panicked, _ => .panicked

instance : Monad PResult where
  pure := PResult.ok
  bind := PResult.bind

/-- Rust slice indexing `&buffer[a..b]`: panics unless `a ≤ b ≤ len`. -/
def sliceR (l : List UInt8) (a b : Nat) : PResult (List UInt8) :=
  if a ≤ b ∧ b ≤ l.length then .ok ((l.drop a).take (b - a)) else .panicked

/-- `u16::from_le_bytes` on a two-byte slice. -/
def readU16LE (l : List UInt8) : Nat :=
  (l.getD 0 0).toNat + 256 * (l.getD 1 0).toNat

/-- `u64::from_le_bytes` on an eight-byte slice. -/
def readU64LE (l : List UInt8) : Nat :=
  (l.getD 0 0).toNat + 2 ^ 8 * (l.getD 1 0).toNat + 2 ^ 16 * (l.getD 2 0).toNat
    + 2 ^ 24 * (l.getD 3 0).toNat + 2 ^ 32 * (l.getD 4 0).toNat
    + 2 ^ 40 * (l.getD 5 0).toNat + 2 ^ 48 * (l.getD 6 0).toNat
    + 2 ^ 56 * (l.getD 7 0).toNat

/-- `u16::to_le_bytes` (truncates to 16 bits as the cast does). -/
def le16 (n : Nat) : List UInt8 :=
  [UInt8.ofNat (n % 256), UInt8.ofNat (n / 256 % 256)]

/-- `u64::to_le_bytes` (truncates to 64 bits as the cast does). -/
def le64 (n : Nat) : List UInt8 :=
  [UInt8.ofNat n, UInt8.ofNat (n >>> 8), UInt8.ofNat (n >>> 16), UInt8.ofNat (n >>> 24),
   UInt8.ofNat (n >>> 32), UInt8.ofNat (n >>> 40), UInt8.ofNat (n >>> 48), UInt8.ofNat (n >>> 56)]

/-- The `SignerMap` enum of `src/index.rs`. -/
inductive SignerMap : Type where
  | none
  | arweave
  | eD25519
  | ethereum
  | solana
  | injectedAptos
  | multiAptos
  | typedEthereum
  | cosmos
  deriving DecidableEq, Repr

/-- The `Config` record of `src/index.rs`. -/
structure Config : Type where
  sigLength : Nat
  pubLength : Nat
  sigName : String
  deriving DecidableEq, Repr

/-- `impl From<u16> for SignerMap` (`src/index.rs`): unknown tags map to
`SignerMap::None`. -/
def SignerMap.fromU16 (t : Nat) : SignerMap :=
  match t with
  | 1 => .arweave
  | 2 => .eD25519
  | 3 => .ethereum
  | 4 => .solana
  | 5 => .injectedAptos
  | 6 => .multiAptos
  | 7 => .typedEthereum
  | _ => .none

/-- `SignerMap::as_u16` (`src/index.rs`): `None`/`Cosmos` fall to
`u16::MAX`. -/
def SignerMap.asU16 : SignerMap → Nat
  | .arweave => 1
  | .eD25519 => 2
  | .ethereum => 3
  | .solana => 4
  | .injectedAptos => 5
  | .multiAptos => 6
  | .typedEthereum => 7
  | _ => 65535

/-- `SignerMap::get_config` (`src/index.rs`) with every cargo feature
enabled; the surviving wildcard arm (reached for `SignerMap::None`)
panics, modelled as `Option.none`. -/
def SignerMap.getConfig : SignerMap → Option Config
  | .arweave => some ⟨512, 512, "arweave"⟩
  | .eD25519 => some ⟨64, 32, "ed25519"⟩
  | .ethereum => some ⟨64 + 1, 65, "ethereum"⟩
  | .solana => some ⟨64, 32, "solana"⟩
  | .injectedAptos => some ⟨64, 32, "injectedAptos"⟩
  | .multiAptos => some ⟨64 * 32 + 4, 32 * 32 + 1, "multiAptos"⟩
  | .cosmos => some ⟨64, 33, "cosmos"⟩
  | .typedEthereum => some ⟨64 + 1, 42, "typedEthereum"⟩
  | .none => Option.none

/-- `get_config` as it behaves at a call site: the wildcard arm is a
`panic!`. -/
def SignerMap.getConfigP (s : SignerMap) : PResult Config :=
  match s.getConfig with
  | some c => .ok c
  | Option.none => .panicked

/-- A continuation byte `0x80..=0xBF`. -/
def utf8Cont (b : UInt8) : Bool :=
  decide (0x80 ≤ b.toNat ∧ b.toNat ≤ 0xBF)

/-- UTF-8 validity as checked by Rust `String::from_utf8` (RFC 3629:
no overlong forms, no surrogates, code points ≤ U+10FFFF). -/
def isValidUtf8 : List UInt8 → Bool
  | [] => true
  | b0 :: t0 =>
    if b0.toNat ≤ 0x7F then isValidUtf8 t0
    else match t0 with
    | [] => false
    | b1 :: t1 =>
      if 0xC2 ≤ b0.toNat ∧ b0.toNat ≤ 0xDF then utf8Cont b1 && isValidUtf8 t1
      else match t1 with
      | [] => false
      | b2 :: t2 =>
        if b0.toNat = 0xE0 then
          decide (0xA0 ≤ b1.toNat ∧ b1.toNat ≤ 0xBF) && utf8Cont b2 && isValidUtf8 t2
        else if (0xE1 ≤ b0.toNat ∧ b0.toNat ≤ 0xEC) ∨ b0.toNat = 0xEE ∨ b0.toNat = 0xEF then
          utf8Cont b1 && utf8Cont b2 && isValidUtf8 t2
        else if b0.toNat = 0xED then
          decide (0x80 ≤ b1.toNat ∧ b1.toNat ≤ 0x9F) && utf8Cont b2 && isValidUtf8 t2
        else match t2 with
        | [] => false
        | b3 :: t3 =>
          if b0.toNat = 0xF0 then
            decide (0x90 ≤ b1.toNat ∧ b1.toNat ≤ 0xBF) && utf8Cont b2 && utf8Cont b3 && isValidUtf8 t3
          else if 0xF1 ≤ b0.toNat ∧ b0.toNat ≤ 0xF3 then
            utf8Cont b1 && utf8Cont b2 && utf8Cont b3 && isValidUtf8 t3
          else if b0.toNat = 0xF4 then
            decide (0x80 ≤ b1.toNat ∧ b1.toNat ≤ 0x8F) && utf8Cont b2 && utf8Cont b3 && isValidUtf8 t3
          else false

/-- The `Tag` record of `src/tags.rs`.  The Rust fields are `String`s;
here each field is the UTF-8 byte sequence of the string (two Rust strings
are equal iff their UTF-8 bytes are), with validity enforced where the
source enforces it (`String::from_utf8` inside the avro decoder). -/
structure Tag : Type where
  name : List UInt8
  value : List UInt8
  deriving DecidableEq, Repr

/-- avro-rs `max_allocation_bytes` default: every decoded length is
capped at 512 MiB. -/
def maxAllocationBytes : Nat := 512 * 1024 * 1024

/-- Reinterpretation of `n as i64` in two-complement form (after the `usize`
value is truncated to 64 bits). -/
def i64ofNat (n : Nat) : Int :=
  if n % 2 ^ 64 < 2 ^ 63 then ((n % 2 ^ 64 : Nat) : Int)
  else ((n % 2 ^ 64 : Nat) : Int) - 2 ^ 64

/-- avro zig-zag of an `i64`: `(z << 1) ^ (z >> 63)` as `u64`. -/
def zigzag64 (i : Int) : Nat :=
  if 0 ≤ i then (2 * i).toNat else (-(2 * i) - 1).toNat

/-- Inverse zig-zag as avro-rs computes it: `(n >> 1) as i64 ^ -((n & 1) as i64)`. -/
def unzigzag (n : Nat) : Int :=
  if n % 2 = 0 then ((n / 2 : Nat) : Int) else -((n / 2 : Nat) : Int) - 1

/-- avro base-128 varint emitter (`encode_variable`), fuelled so the
kernel can evaluate it (`n + 1` fuel always suffices). -/
def encodeVarintAux : Nat → Nat → List UInt8
  | 0, _ => []
  | fuel + 1, n =>
    if n < 0x80 then [UInt8.ofNat n]
    else UInt8.ofNat (n % 0x80 + 0x80) :: encodeVarintAux fuel (n / 0x80)

/-- avro base-128 varint emitter (`encode_variable`). -/
def encodeVarint (n : Nat) : List UInt8 :=
  encodeVarintAux (n + 1) n

/-- avro `encode_long`. -/
def encodeLong (i : Int) : List UInt8 :=
  encodeVarint (zigzag64 i)

/-- avro length prefix as the encoder writes it: `len as i64`. -/
def encodeLen (n : Nat) : List UInt8 :=
  encodeLong (i64ofNat n)

/-- avro encoding of a string value (length prefix + UTF-8 bytes). -/
def encodeStr (s : List UInt8) : List UInt8 :=
  encodeLen s.length ++ s

/-- avro encoding of one `Tag` record: its two string fields in schema
order. -/
def encodeTagValue (t : Tag) : List UInt8 :=
  encodeStr t.name ++ encodeStr t.value

/-- `Vec<Tag>::encode` (`src/tags.rs`), i.e. `to_avro_datum` on the
`array<record{name,value}>` schema: a non-empty array is one block
(count, then items) followed by the zero terminator; an empty array is
just the terminator. -/
def avroEncodeTags (tags : List Tag) : List UInt8 :=
  (if tags.isEmpty then [] else encodeLen tags.length ++ (tags.map encodeTagValue).flatten)
    ++ encodeLong 0

/-- avro-rs `decode_variable`: reads at most 10 bytes, ORing each
low 7 bits of each byte shifted by `7*j` into a `u64` (bits shifted past 63
are discarded, hence the `% 2^64`). -/
def decodeVarint : List UInt8 → Nat → Option (Nat × List UInt8)
  | [], _ => none
  | b :: rest, j =>
    if 9 < j then none
    else if b.toNat >>> 7 = 0 then some ((b.toNat &&& 0x7F) <<< (7 * j) % 2 ^ 64, rest)
    else match decodeVarint rest (j + 1) with
      | some (v, r) => some (((b.toNat &&& 0x7F) <<< (7 * j) % 2 ^ 64) ||| v, r)
      | none => none

/-- avro-rs `zag_i64`. -/
def decodeLong (l : List UInt8) : Option (Int × List UInt8) :=
  (decodeVarint l 0).map (fun p => (unzigzag p.1, p.2))

/-- avro-rs `decode_len`: the count is cast `as usize` (negative values
wrap) and checked against `max_allocation_bytes`. -/
def decodeLen (l : List UInt8) : Option (Nat × List UInt8) :=
  match decodeLong l with
  | some (i, r) =>
    let n := (i % (2 ^ 64 : Int)).toNat
    if n ≤ maxAllocationBytes then some (n, r) else none
  | none => none

/-- avro-rs decode of a `string` value: length, raw bytes (EOF if the
input is shorter), UTF-8 validation. -/
def decodeStr (l : List UInt8) : Option (List UInt8 × List UInt8) :=
  match decodeLen l with
  | some (n, r) =>
    if n ≤ r.length then
      if isValidUtf8 (r.take n) then some (r.take n, r.drop n) else none
    else none
  | none => none

/-- avro-rs decode of `count` consecutive `Tag` records (each record is
its two string fields in schema order). -/
def decodeTagItems : Nat → List UInt8 → Option (List Tag × List UInt8)
  | 0, l => some ([], l)
  | k + 1, l =>
    match decodeStr l with
    | some (n, r1) =>
      match decodeStr r1 with
      | some (v, r2) =>
        match decodeTagItems k r2 with
        | some (ts, r3) => some (⟨n, v⟩ :: ts, r3)
        | none => none
      | none => none
    | none => none

/-- avro-rs decode of an array: blocks of (count, items) until a zero
count.  Each loop iteration consumes at least one byte, so fuel
`l.length + 1` (supplied by `decodeTags`) never runs out before the
loop would stop on its own. -/
def decodeBlocks : Nat → List UInt8 → Option (List Tag × List UInt8)
  | 0, _ => none
  | fuel + 1, l =>
    match decodeLen l with
    | some (n, r) =>
      if n = 0 then some ([], r)
      else
        match decodeTagItems n r with
        | some (ts, r2) =>
          match decodeBlocks fuel r2 with
          | some (ts2, r3) => some (ts ++ ts2, r3)
          | none => none
        | none => none
    | none => none

/-- `<&mut [u8] as AvroDecode>::decode` (`src/tags.rs`):
`from_avro_datum` on the tags schema followed by `from_value::<Vec<Tag>>`;
every failure is mapped to `InvalidTagEncoding`.  Trailing bytes after
the array terminator are ignored, as `from_avro_datum` ignores them. -/
def decodeTags (l : List UInt8) : Except BundlrError (List Tag) :=
  match decodeBlocks (l.length + 1) l with
  | some (ts, _) => .ok ts
  | none => .error .invalidTagEncoding

/-- `Vec<Tag>::encode` never fails on a value built from a `Vec<Tag>`
(`to_avro_datum` validation always succeeds for values matching the
schema); the source maps the impossible failure to `NoBytesLeft`. -/
def encodeTags (tags : List Tag) : Except BundlrError (List UInt8) :=
  .ok (avroEncodeTags tags)

/-- One item of the `Stream<Item = anyhow::Result<Bytes>>` a streamed
data source yields (a finite stream, as any file-backed stream is). -/
inductive StreamItem : Type where
  | ok (b : List UInt8)
  | err
  deriving DecidableEq, Repr

/-- The `Data` enum of `src/transaction/bundlr.rs`. -/
inductive Data : Type where
  | none
  | bytes (d : List UInt8)
  | stream (s : List StreamItem)
  deriving DecidableEq, Repr

/-- The `BundlrTx` struct of `src/transaction/bundlr.rs`. -/
structure BundlrTx : Type where
  signatureType : SignerMap
  signature : List UInt8
  owner : List UInt8
  target : List UInt8
  anchor : List UInt8
  tags : List Tag
  data : Data
  deriving DecidableEq, Repr

def liftE {α : Type} : Except BundlrError α → PResult α
  | .ok a => .ok a
  | .error e => .err e

/-- The presence-byte match inside `from_info_bytes`: `0` means absent,
`1` means the next 32 bytes, anything else is `InvalidPresenceByte`
carrying the decimal string of the byte. -/
def readPresence (buffer : List UInt8) (flagB : List UInt8) (start : Nat) :
    PResult (List UInt8) :=
  match (flagB.getD 0 0).toNat with
  | 0 => .ok []
  | 1 => sliceR buffer (start + 1) (start + 33)
  | b => .err (.invalidPresenceByte (toString b))

/-- `BundlrTx::from_info_bytes` (`src/transaction/bundlr.rs`): parses the
fixed prefix and returns the item (with `Data::None`) plus the offset
where the data payload starts.  All buffer accesses are raw slices and
panic when the buffer is too short. -/
def BundlrTx.fromInfoBytes (buffer : List UInt8) : PResult (BundlrTx × Nat) :=
  PResult.bind (sliceR buffer 0 2) fun sigTypeB =>
  let signatureType := readU16LE sigTypeB
  let signer := SignerMap.fromU16 signatureType
  PResult.bind signer.getConfigP fun config =>
  PResult.bind (sliceR buffer 2 (2 + config.sigLength)) fun signature =>
  PResult.bind (sliceR buffer (2 + config.sigLength) (2 + config.sigLength + config.pubLength))
    fun owner =>
  let targetStart := 2 + config.sigLength + config.pubLength
  PResult.bind (sliceR buffer targetStart (targetStart + 1)) fun tb =>
  PResult.bind (readPresence buffer tb targetStart) fun target =>
  let anchorStart := targetStart + 1 + target.length
  PResult.bind (sliceR buffer anchorStart (anchorStart + 1)) fun ab =>
  PResult.bind (readPresence buffer ab anchorStart) fun anchor =>
  let tagsStart := anchorStart + 1 + anchor.length
  PResult.bind (sliceR buffer tagsStart (tagsStart + 8)) fun ntB =>
  let numberOfTags := readU64LE ntB
  PResult.bind (sliceR buffer (tagsStart + 8) (tagsStart + 16)) fun ntbB =>
  let numberOfTagsBytes := readU64LE ntbB
  PResult.bind (sliceR buffer (tagsStart + 16) (tagsStart + 16 + numberOfTagsBytes))
    fun tagsBytes =>
  PResult.bind (if 0 < numberOfTagsBytes then liftE (decodeTags tagsBytes) else .ok [])
    fun tags =>
  if numberOfTags ≠ tags.length then .err .invalidTagEncoding
  else .ok (⟨signer, signature, owner, target, anchor, tags, .none⟩,
    tagsStart + 16 + numberOfTagsBytes)

/-- `BundlrTx::from_bytes`: parse the prefix, then take the remainder of
the buffer as the owned data payload. -/
def BundlrTx.fromBytes (buffer : List UInt8) : PResult BundlrTx :=
  PResult.bind (BundlrTx.fromInfoBytes buffer) fun p =>
  PResult.bind (sliceR buffer p.2 buffer.length) fun d =>
  .ok { p.1 with data := .bytes d }

/-- `BundlrTx::is_signed`. -/
def BundlrTx.isSigned (tx : BundlrTx) : Bool :=
  !tx.signature.isEmpty && decide (tx.signatureType ≠ SignerMap.none)

/-- `BundlrTx::as_bytes` (`src/transaction/bundlr.rs`): the serializer.
(`number_of_tags_bytes` is an `[u8; 8]`, never empty, so the encoded
tags are always appended; the usize conversion in the capacity computation
is infallible on a 64-bit target and is omitted.) -/
def BundlrTx.asBytes (tx : BundlrTx) : PResult (List UInt8) :=
  if !tx.isSigned then .err .noSignature
  else match tx.data with
  | .stream _ => .err .invalidDataType
  | .none => .err .invalidDataType
  | .bytes d =>
    PResult.bind (if !tx.tags.isEmpty then liftE (encodeTags tx.tags) else .ok [])
      fun encodedTags =>
    PResult.bind tx.signatureType.getConfigP fun _config =>
    .ok (le16 tx.signatureType.asU16 ++ tx.signature ++ tx.owner
      ++ (if tx.target.isEmpty then [0] else [1]) ++ tx.target
      ++ (if tx.anchor.isEmpty then [0] else [1]) ++ tx.anchor
      ++ le64 tx.tags.length ++ le64 encodedTags.length
      ++ encodedTags ++ d)

/-- `"blob"`. -/
def BLOB_AS_BUFFER : List UInt8 := [98, 108, 111, 98]

/-- `"list"`. -/
def LIST_AS_BUFFER : List UInt8 := [108, 105, 115, 116]

/-- `"dataitem"`. -/
def DATAITEM_AS_BUFFER : List UInt8 := [100, 97, 116, 97, 105, 116, 101, 109]

/-- `"1"`. -/
def ONE_AS_BUFFER : List UInt8 := [49]

/-- ASCII decimal digits, fuelled so the kernel can evaluate it (the
fuel `n + 1` always suffices since the value shrinks at every step). -/
def asciiDecAux : Nat → Nat → List UInt8
  | 0, _ => []
  | fuel + 1, n =>
    if n < 10 then [UInt8.ofNat (48 + n)]
    else asciiDecAux fuel (n / 10) ++ [UInt8.ofNat (48 + n % 10)]

/-- ASCII decimal digits of `n` (`usize::to_string().as_bytes()`). -/
def asciiDec (n : Nat) : List UInt8 :=
  asciiDecAux (n + 1) n

/-- Round-to-nearest-even of an integer to a 53-bit mantissa: the value
of `n as f64`.  Exact for `n ≤ 2^53` (every chunk count in practice). -/
def roundF64 (n : Nat) : Nat :=
  if n ≤ 2 ^ 53 then n
  else
    let k := Nat.log2 n
    let s := k - 52
    let q := n >>> s
    let r := n % 2 ^ s
    let half := 2 ^ (s - 1)
    if half < r ∨ (r = half ∧ q % 2 = 1) then (q + 1) <<< s else q <<< s

/-- `(len as f64).to_string().as_bytes()`: The Rust `Display` form of an
integral `f64` prints its exact decimal digits. -/
def f64ToDecimal (n : Nat) : List UInt8 :=
  asciiDec (roundF64 n)

/-- The `DeepHashChunk` enum of `src/deep_hash.rs`. -/
inductive DeepHashChunk : Type where
  | chunk (b : List UInt8)
  | stream (s : List StreamItem)
  | chunks (l : List DeepHashChunk)
  deriving Repr

/-- The stream loop in the `Stream` branch of `deep_hash`: any stream error
becomes `NoBytesLeft`; otherwise the incremental SHA-384 state is the
concatenation of all chunks and `length` is its byte count. -/
def collectStream : List StreamItem → Except BundlrError (List UInt8)
  | [] => .ok []
  | .err :: _ => .error .noBytesLeft
  | .ok c :: rest =>
    match collectStream rest with
    | .ok acc => .ok (c ++ acc)
    | .error e => .error e

mutual

/-- `deep_hash` (`src/deep_hash.rs`), parameterized by the SHA-384
primitive `sha` (openssl, external to the repository). -/
def deepHash (sha : List UInt8 → List UInt8) : DeepHashChunk → Except BundlrError (List UInt8)
  | .chunk b =>
    .ok (sha (sha (BLOB_AS_BUFFER ++ asciiDec b.length) ++ sha b))
  | .stream s =>
    match collectStream s with
    | .ok all => .ok (sha (sha (BLOB_AS_BUFFER ++ asciiDec all.length) ++ sha all))
    | .error e => .error e
  | .chunks l =>
    deepHashChunks sha l (sha (LIST_AS_BUFFER ++ f64ToDecimal l.length))

/-- `deep_hash_chunks` (`src/deep_hash.rs`): the accumulator fold. -/
def deepHashChunks (sha : List UInt8 → List UInt8) :
    List DeepHashChunk → List UInt8 → Except BundlrError (List UInt8)
  | [], acc => .ok acc
  | c :: rest, acc =>
    match deepHash sha c with
    | .ok h => deepHashChunks sha rest (sha (acc ++ h))
    | .error e => .error e

end

mutual

/-- `deep_hash_sync` (`src/deep_hash_sync.rs`): the `Stream` arm is
`panic!("Streaming is not supported for sync")`. -/
def deepHashSync (sha : List UInt8 → List UInt8) : DeepHashChunk → PResult (List UInt8)
  | .chunk b =>
    .ok (sha (sha (BLOB_AS_BUFFER ++ asciiDec b.length) ++ sha b))
  | .chunks l =>
    deepHashChunksSync sha l (sha (LIST_AS_BUFFER ++ f64ToDecimal l.length))
  | .stream _ => .panicked

/-- `deep_hash_chunks_sync` (`src/deep_hash_sync.rs`). -/
def deepHashChunksSync (sha : List UInt8 → List UInt8) :
    List DeepHashChunk → List UInt8 → PResult (List UInt8)
  | [], acc => .ok acc
  | c :: rest, acc =>
    match deepHashSync sha c with
    | .ok h => deepHashChunksSync sha rest (sha (acc ++ h))
    | .err e => .err e
    | .panicked => .panicked

end

/-- The `for i in 0..32` loop of `MultiAptosSigner::verify`
(`src/signers/aptos.rs`), over the list of loop indices, threading the
`one_false` flag.  `encode_bitmap[bucket]` is a raw index (panics out of
range); the two `slice` calls panic out of range; `from_bytes` failures
map to `ED25519Error`.  On a failed `verify` the source executes
`one_false = false` — exactly as written. -/
def multiAptosVerifyLoop {PK SIG : Type} (pkFromBytes : List UInt8 → Except Unit PK)
    (sigFromBytes : List UInt8 → Except Unit SIG) (edVerify : PK → List UInt8 → SIG → Bool)
    (pk message signatures encodeBitmap : List UInt8) :
    List Nat → Bool → PResult Bool
  | [], oneFalse => .ok oneFalse
  | i :: rest, oneFalse =>
    let bucket := i / 8
    let bucketPos := i - bucket * 8
    match encodeBitmap[bucket]? with
    | Option.none => .panicked
    | some bb =>
      if bb.toNat &&& (128 >>> bucketPos) ≠ 0 then
        PResult.bind (sliceR signatures (i * 64) ((i + 1) * 64)) fun sigSlice =>
        PResult.bind (sliceR pk (i * 32) ((i + 1) * 32)) fun pubKeySlc =>
        match pkFromBytes pubKeySlc with
        | .error _ => .err .eD25519Error
        | .ok publicKey =>
          match sigFromBytes sigSlice with
          | .error _ => .err .eD25519Error
          | .ok sg =>
            multiAptosVerifyLoop pkFromBytes sigFromBytes edVerify pk message signatures
              encodeBitmap rest (if edVerify publicKey message sg then oneFalse else false)
      else
        multiAptosVerifyLoop pkFromBytes sigFromBytes edVerify pk message signatures
          encodeBitmap rest oneFalse

/-- `MultiAptosSigner::verify` (`src/signers/aptos.rs`), parameterized
by the ed25519-dalek primitives (`PublicKey::from_bytes`,
`Signature::from_bytes`, `PublicKey::verify`), which are external to the
repository.  `SIG_LENGTH_M = 64·32 + 4`; the bitmap is the last 4 bytes
of the signature buffer. -/
def MultiAptosSigner.verify {PK SIG : Type} (pkFromBytes : List UInt8 → Except Unit PK)
    (sigFromBytes : List UInt8 → Except Unit SIG) (edVerify : PK → List UInt8 → SIG → Bool)
    (pk message signature : List UInt8) : PResult Unit :=
  let sigLength := 64 * 32 + 4
  let bitmapPos := sigLength - 4
  PResult.bind (sliceR signature 0 bitmapPos) fun signatures =>
  PResult.bind (sliceR signature bitmapPos signature.length) fun encodeBitmap =>
  PResult.bind (multiAptosVerifyLoop pkFromBytes sigFromBytes edVerify pk message signatures
    encodeBitmap (List.range 32) false) fun oneFalse =>
  if oneFalse then .err .invalidSignature else .ok ()

/-- The `SIG_TYPE` constant of `src/signers/typed_ethereum.rs`, returned
by `TypedEthereumSigner::sig_type()`: it is `SignerMap::Ethereum`. -/
def TypedEthereumSigner.sigType : SignerMap := SignerMap.ethereum

/-- The `SIG_LENGTH` constant of `src/signers/typed_ethereum.rs`
(`COMPACT_SIGNATURE_SIZE + 1`), returned by `get_sig_length()`. -/
def TypedEthereumSigner.sigLength : Nat := 64 + 1

/-- The `PUB_LENGTH` constant of `src/signers/typed_ethereum.rs`,
returned by `get_pub_length()`. -/
def TypedEthereumSigner.pubLength : Nat := 42

/-- `read_offset` (`src/utils/mod.rs`): allocate a `length`-byte buffer,
seek to `offset`, zero-fill, do one `read` and ignore how many bytes it
read.  The single read returns `min(length, file_len - offset)` bytes
(zero when the offset is at or past end of file), so the tail of the
buffer stays zero.  I/O errors are outside the model; the function
returns the buffer itself. -/
def readOffset (file : List UInt8) (offset length : Nat) : List UInt8 :=
  let available := (file.drop offset).take length
  available ++ List.replicate (length - available.length) 0

/-- The fixed probe read of `verify_file_bundle` (`src/verify/file.rs`):
`read_offset(&mut file, offset, 4096)`. -/
def verifyProbeRead (file : List UInt8) (offset : Nat) : List UInt8 :=
  readOffset file offset 4096

/-- The decoder-side well-formedness a `Tag` coming from a Rust
`Vec<Tag>` always satisfies: valid UTF-8 fields within the avro-rs
allocation cap. -/
def Tag.wf (t : Tag) : Bool :=
  isValidUtf8 t.name && isValidUtf8 t.value &&
  decide (t.name.length ≤ maxAllocationBytes) && decide (t.value.length ≤ maxAllocationBytes)

/-- The presence-byte encoding `as_bytes` emits for `target`/`anchor`. -/
def presenceEnc (x : List UInt8) : List UInt8 :=
  (if x.isEmpty then [0] else [1]) ++ x

/-- Whether a `Data` value is the `Bytes` variant. -/
def Data.isBytes : Data → Bool
  | .bytes _ => true
  | _ => false

/-- A well-formed item in the sense of the specification (§3): a signed
item whose field lengths match the registry row of its signer, whose target
and anchor are empty or 32 bytes, whose tags are real Rust strings
(valid UTF-8) within the avro-rs allocation cap, and whose data is an
owned byte buffer.  The last bound keeps the encoded tag block within
`u64` so its length survives the `as u64` cast. -/
def WellFormed (tx : BundlrTx) : Prop :=
  tx.signatureType ≠ SignerMap.none ∧
  SignerMap.fromU16 tx.signatureType.asU16 = tx.signatureType ∧
  tx.signature.length = (tx.signatureType.getConfig.getD ⟨0, 0, ""⟩).sigLength ∧
  tx.signature ≠ [] ∧
  tx.owner.length = (tx.signatureType.getConfig.getD ⟨0, 0, ""⟩).pubLength ∧
  (tx.target = [] ∨ tx.target.length = 32) ∧
  (tx.anchor = [] ∨ tx.anchor.length = 32) ∧
  (∀ t ∈ tx.tags, Tag.wf t = true) ∧
  tx.tags.length ≤ maxAllocationBytes ∧
  (avroEncodeTags tx.tags).length < 2 ^ 64 ∧
  tx.data.isBytes = true

instance (tx : BundlrTx) : Decidable (WellFormed tx) := by
  unfold WellFormed
  infer_instance

/-- `b"Hello, Bundlr!"` (14 bytes). -/
def helloBundlr : List UInt8 :=
  [72, 101, 108, 108, 111, 44, 32, 66, 117, 110, 100, 108, 114, 33]

/-- `b"blob14"`. -/
def blob14 : List UInt8 := [98, 108, 111, 98, 49, 52]

/-- A multi-Aptos signature buffer whose 4-byte bitmap (bytes 2048..2051)
marks slot 0 as included: 2048 zero signature bytes then `80 00 00 00`. -/
def c1Signature : List UInt8 := List.replicate 2048 0 ++ [128, 0, 0, 0]

/-- A 1025-byte multi-Aptos public-key buffer (32 key slots + threshold). -/
def c1PubKey : List UInt8 := List.replicate 1025 0

/-- A concrete well-formed item: ed25519, empty target and anchor, one
`name: value` tag, data `b"hi"`. -/
def c2tx : BundlrTx :=
  ⟨.eD25519, List.replicate 64 1, List.replicate 32 2, [], [],
   [⟨[110, 97, 109, 101], [118, 97, 108, 117, 101]⟩], .bytes [104, 105]⟩

/-- A parse input with `num_tags = 0` but `num_tag_bytes = 1` whose tag
byte `0x00` is a valid empty avro array block. -/
def c8buf : List UInt8 :=
  [2, 0] ++ List.replicate 64 0 ++ List.replicate 32 0 ++ [0] ++ [0] ++ le64 0 ++ le64 1 ++ [0]

@[simp] theorem PResult.bind_ok {α β : Type} (a : α) (f : α → PResult β) :
    PResult.bind (.ok a) f = f a := rfl

@[simp] theorem PResult.bind_err {α β : Type} (e : BundlrError) (f : α → PResult β) :
    PResult.bind (.err e) f = .err e := rfl

@[simp] theorem PResult.bind_panicked {α β : Type} (f : α → PResult β) :
    PResult.bind .panicked f = .panicked := rfl

theorem toNat_ofNat8 (n : Nat) : (UInt8.ofNat n).toNat = n % 256 := rfl

theorem sliceR_exact (buf pre mid post : List UInt8) (a b : Nat)
    (hbuf : buf = pre ++ (mid ++ post)) (ha : a = pre.length)
    (hb : b = pre.length + mid.length) :
    sliceR buf a b = .ok mid := by
  subst hbuf ha hb
  unfold sliceR
  have hcond : pre.length ≤ pre.length + mid.length ∧
      pre.length + mid.length ≤ (pre ++ (mid ++ post)).length := by
    simp [List.length_append]
  rw [if_pos hcond]
  rw [List.drop_left, Nat.add_sub_cancel_left, List.take_left]

theorem readU16_le16 (v : Nat) (h : v < 2 ^ 16) : readU16LE (le16 v) = v := by
  simp [readU16LE, le16, toNat_ofNat8]
  omega

@[simp] theorem le16_length (v : Nat) : (le16 v).length = 2 := rfl

@[simp] theorem le64_length (n : Nat) : (le64 n).length = 8 := rfl

theorem readU64_le64 (n : Nat) (h : n < 2 ^ 64) : readU64LE (le64 n) = n := by
  simp [readU64LE, le64, toNat_ofNat8, Nat.shiftRight_eq_div_pow]
  omega

theorem readPresence_eval (buf pre x post : List UInt8) (start : Nat)
    (hx : x = [] ∨ x.length = 32)
    (hbuf : buf = pre ++ ((if x.isEmpty then [0] else [1]) ++ (x ++ post)))
    (hstart : start = pre.length) :
    readPresence buf (if x.isEmpty then [0] else [1]) start = .ok x := by
  rcases hx with hx | hx
  · subst hx
    simp [readPresence, toNat_ofNat8]
  · have hne : ¬ x.isEmpty := by
      cases x with
      | nil => simp at hx
      | cons a t => simp
    rw [if_neg (by simpa using hne)] at hbuf ⊢
    show readPresence buf [1] start = .ok x
    unfold readPresence
    simp only [List.getD, List.getElem?_cons_zero, Option.getD_some, toNat_ofNat8]
    exact sliceR_exact buf (pre ++ [1]) x post (start + 1) (start + 33)
      (by simp [hbuf]) (by simp [hstart]) (by simp [hstart, hx])

theorem and127_eq_mod (x : Nat) : x &&& 127 = x % 128 := by
  have h : (127 : Nat) = 2 ^ 7 - 1 := rfl
  rw [h, Nat.and_pow_two_sub_one_eq_mod]

theorem decodeVarint_encodeAux (fuel : Nat) : ∀ (n j : Nat) (r : List UInt8),
    n < fuel → j ≤ 9 → n * 2 ^ (7 * j) < 2 ^ 64 →
    decodeVarint (encodeVarintAux fuel n ++ r) j = some (n * 2 ^ (7 * j), r) := by
  induction fuel with
  | zero => intro n j r hn; omega
  | succ fuel ih =>
    intro n j r hn hj h
    by_cases hnn : n < 0x80
    · rw [show encodeVarintAux (fuel + 1) n = [UInt8.ofNat n] from by
        simp only [encodeVarintAux, if_pos hnn]]
      show decodeVarint (UInt8.ofNat n :: r) j = some (n * 2 ^ (7 * j), r)
      have hb : (UInt8.ofNat n).toNat = n := by
        rw [toNat_ofNat8]
        omega
      simp only [decodeVarint, hb]
      rw [if_neg (by omega)]
      rw [if_pos (by rw [Nat.shiftRight_eq_div_pow]; omega)]
      have hmod : n % 128 = n := Nat.mod_eq_of_lt hnn
      rw [and127_eq_mod, hmod, Nat.shiftLeft_eq, Nat.mod_eq_of_lt h]
    · rw [show encodeVarintAux (fuel + 1) n
          = UInt8.ofNat (n % 0x80 + 0x80) :: encodeVarintAux fuel (n / 0x80) from by
        simp only [encodeVarintAux, if_neg hnn]]
      show decodeVarint (UInt8.ofNat (n % 128 + 128) :: (encodeVarintAux fuel (n / 128) ++ r)) j
        = some (n * 2 ^ (7 * j), r)
      have hb : (UInt8.ofNat (n % 128 + 128)).toNat = n % 128 + 128 := by
        rw [toNat_ofNat8]
        omega
      simp only [decodeVarint, hb]
      rw [if_neg (by omega)]
      rw [if_neg (by rw [Nat.shiftRight_eq_div_pow]; omega)]
      have hj1 : j + 1 ≤ 9 := by
        rcases Nat.lt_or_ge j 9 with hc | hc
        · omega
        · exfalso
          have hj9 : j = 9 := by omega
          subst hj9
          norm_num at h
          omega
      have hd : n / 128 * 128 ≤ n := Nat.mul_comm 128 (n / 128) ▸ Nat.div_mul_le_self n 128
      have hbound : n / 128 * 2 ^ (7 * (j + 1)) < 2 ^ 64 := by
        calc n / 128 * 2 ^ (7 * (j + 1)) = n / 128 * 128 * 2 ^ (7 * j) := by
              rw [show 7 * (j + 1) = 7 + 7 * j by ring, pow_add]
              norm_num
              ring
          _ ≤ n * 2 ^ (7 * j) := Nat.mul_le_mul_right _ hd
          _ < 2 ^ 64 := h
      have hrec := ih (n / 128) (j + 1) r (by omega) hj1 hbound
      rw [hrec]
      have h1 : (n % 128 + 128) &&& 127 = n % 128 := by
        rw [and127_eq_mod]
        omega
      have hlt : n % 128 * 2 ^ (7 * j) < 2 ^ 64 :=
        lt_of_le_of_lt (Nat.mul_le_mul_right _ (Nat.mod_le n 128)) h
      have hsmall : n % 128 * 2 ^ (7 * j) < 2 ^ (7 * j + 7) := by
        rw [pow_add]
        have : n % 128 < 128 := Nat.mod_lt n (by omega)
        calc n % 128 * 2 ^ (7 * j) < 128 * 2 ^ (7 * j) :=
              (Nat.mul_lt_mul_right (Nat.pos_pow_of_pos _ (by omega))).mpr this
          _ = 2 ^ (7 * j) * 2 ^ 7 := by ring
      have hor := Nat.mul_add_lt_is_or hsmall (n / 128)
      have hrw : 2 ^ (7 * j + 7) * (n / 128) = n / 128 * 2 ^ (7 * (j + 1)) := by
        rw [show 7 * (j + 1) = 7 * j + 7 by ring]
        ring
      rw [hrw] at hor
      have hfinal : n % 128 * 2 ^ (7 * j) ||| n / 128 * 2 ^ (7 * (j + 1)) = n * 2 ^ (7 * j) := by
        rw [Nat.lor_comm, ← hor, show 7 * (j + 1) = 7 * j + 7 by ring, pow_add]
        have hnm := Nat.div_add_mod n 128
        calc n / 128 * (2 ^ (7 * j) * 2 ^ 7) + n % 128 * 2 ^ (7 * j)
            = (128 * (n / 128) + n % 128) * 2 ^ (7 * j) := by norm_num; ring
          _ = n * 2 ^ (7 * j) := by rw [hnm]
      simp only [h1, Nat.shiftLeft_eq, Nat.mod_eq_of_lt hlt, hfinal]

theorem decodeVarint_encode (n j : Nat) (r : List UInt8)
    (hj : j ≤ 9) (h : n * 2 ^ (7 * j) < 2 ^ 64) :
    decodeVarint (encodeVarint n ++ r) j = some (n * 2 ^ (7 * j), r) :=
  decodeVarint_encodeAux (n + 1) n j r (Nat.lt_succ_self n) hj h

theorem i64ofNat_eq (n : Nat) (h : n < 2 ^ 63) : i64ofNat n = (n : Int) := by
  unfold i64ofNat
  rw [Nat.mod_eq_of_lt (by omega), if_pos h]

theorem decodeLong_encode (m : Nat) (r : List UInt8) (h : m < 2 ^ 63) :
    decodeLong (encodeLong (m : Int) ++ r) = some ((m : Int), r) := by
  have hz : zigzag64 (m : Int) = 2 * m := by
    rw [zigzag64, if_pos (Int.natCast_nonneg m)]
    rw [show (2 : Int) * (m : Int) = ((2 * m : Nat) : Int) by push_cast; ring]
    exact Int.toNat_natCast _
  unfold encodeLong decodeLong
  rw [hz, decodeVarint_encode (2 * m) 0 r (by omega) (by norm_num; omega)]
  have he : (2 * m) % 2 = 0 := Nat.mul_mod_right 2 m
  have hdiv : 2 * m / 2 = m := by omega
  simp [unzigzag, he, hdiv]

theorem decodeLen_encode (n : Nat) (r : List UInt8) (h : n ≤ maxAllocationBytes) :
    decodeLen (encodeLen n ++ r) = some (n, r) := by
  have h63 : n < 2 ^ 63 := by
    have : maxAllocationBytes < 2 ^ 63 := by norm_num [maxAllocationBytes]
    omega
  unfold encodeLen decodeLen
  rw [i64ofNat_eq n h63, decodeLong_encode n r h63]
  have hmod : (((n : Int)) % ((2 : Int) ^ 64)).toNat = n := by
    rw [Int.emod_eq_of_lt (Int.natCast_nonneg n) (by exact_mod_cast (by omega : n < 2 ^ 64))]
    exact Int.toNat_natCast n
  simp only [hmod, if_pos h]

theorem encodeLong_zero : encodeLong 0 = [0] := rfl

theorem decodeStr_encode (s : List UInt8) (r : List UInt8)
    (hval : isValidUtf8 s = true) (hlen : s.length ≤ maxAllocationBytes) :
    decodeStr (encodeStr s ++ r) = some (s, r) := by
  unfold encodeStr decodeStr
  rw [List.append_assoc, decodeLen_encode s.length (s ++ r) hlen]
  have ht : (s ++ r).take s.length = s := List.take_left s r
  have hd : (s ++ r).drop s.length = r := List.drop_left s r
  simp only [ht, hd]
  rw [if_pos (by simp), if_pos hval]

theorem decodeTagItems_encode (tags : List Tag) (r : List UInt8)
    (h : ∀ t ∈ tags, Tag.wf t = true) :
    decodeTagItems tags.length ((tags.map encodeTagValue).flatten ++ r) = some (tags, r) := by
  induction tags generalizing r with
  | nil => simp [decodeTagItems]
  | cons t ts ih =>
    have hwf := h t (List.mem_cons_self t ts)
    simp only [Tag.wf, Bool.and_eq_true, decide_eq_true_eq] at hwf
    obtain ⟨⟨⟨hn, hv⟩, hln⟩, hlv⟩ := hwf
    simp only [List.map_cons, List.flatten_cons, List.length_cons]
    rw [show encodeTagValue t ++ (ts.map encodeTagValue).flatten ++ r
        = encodeStr t.name ++ (encodeStr t.value ++ ((ts.map encodeTagValue).flatten ++ r)) by
      simp [encodeTagValue, List.append_assoc]]
    simp only [decodeTagItems, decodeStr_encode t.name _ hn hln,
      decodeStr_encode t.value _ hv hlv,
      ih r (fun x hx => h x (List.mem_cons_of_mem t hx))]

theorem decodeBlocks_encode (tags : List Tag) (r : List UInt8) (fuel : Nat)
    (hne : tags ≠ []) (hwf : ∀ t ∈ tags, Tag.wf t = true)
    (hcount : tags.length ≤ maxAllocationBytes) (hfuel : 2 ≤ fuel) :
    decodeBlocks fuel (avroEncodeTags tags ++ r) = some (tags, r) := by
  obtain ⟨f, rfl⟩ : ∃ f, fuel = f + 2 := ⟨fuel - 2, by omega⟩
  unfold avroEncodeTags
  rw [if_neg (by simpa using hne), encodeLong_zero]
  rw [show encodeLen tags.length ++ (tags.map encodeTagValue).flatten ++ [0] ++ r
      = encodeLen tags.length ++ ((tags.map encodeTagValue).flatten ++ ([0] ++ r)) by
    simp [List.append_assoc]]
  have hlz : ¬ tags.length = 0 := by simpa using hne
  have hz : ([0] : List UInt8) ++ r = encodeLen 0 ++ r := rfl
  rw [show f + 2 = (f + 1) + 1 by ring]
  simp only [decodeBlocks, decodeLen_encode tags.length _ hcount, if_neg hlz, hz,
    decodeTagItems_encode tags (encodeLen 0 ++ r) hwf,
    decodeLen_encode 0 r (by norm_num [maxAllocationBytes]), if_pos rfl, if_true,
    List.append_nil]

theorem decodeTags_encode (tags : List Tag)
    (hwf : ∀ t ∈ tags, Tag.wf t = true) (hcount : tags.length ≤ maxAllocationBytes) :
    decodeTags (avroEncodeTags tags) = .ok tags := by
  by_cases hne : tags = []
  · subst hne
    rfl
  · unfold decodeTags
    have hlen : 2 ≤ (avroEncodeTags tags).length + 1 := by
      have : 1 ≤ (avroEncodeTags tags).length := by
        simp [avroEncodeTags, encodeLong_zero]
      omega
    rw [show avroEncodeTags tags = avroEncodeTags tags ++ [] by simp]
    rw [decodeBlocks_encode tags [] _ hne hwf hcount (by simpa using hlen)]

theorem presenceEnc_length (x : List UInt8) : (presenceEnc x).length = 1 + x.length := by
  by_cases h : x.isEmpty <;> simp [presenceEnc, h] <;> omega

theorem parsePresence_step {α : Type} (buf pre x post : List UInt8) (start : Nat)
    (hx : x = [] ∨ x.length = 32) (hbuf : buf = pre ++ (presenceEnc x ++ post))
    (hstart : start = pre.length) (k : List UInt8 → PResult α) :
    PResult.bind (sliceR buf start (start + 1))
      (fun fb => PResult.bind (readPresence buf fb start) k) = k x := by
  have hflag : sliceR buf start (start + 1) = .ok (if x.isEmpty then [0] else [1]) :=
    sliceR_exact buf pre (if x.isEmpty then [0] else [1]) (x ++ post) start (start + 1)
      (by rw [hbuf]; simp [presenceEnc, List.append_assoc])
      hstart
      (by by_cases h : x.isEmpty <;> simp [h, hstart])
  rw [hflag, PResult.bind_ok,
    readPresence_eval buf pre x post start hx
      (by rw [hbuf]; simp [presenceEnc, List.append_assoc]) hstart,
    PResult.bind_ok]

theorem fromInfoBytes_layout (v : Nat) (cfg : Config)
    (sig own tgt anc tagBytes dataB : List UInt8) (nt ntb : Nat)
    (hv : v < 2 ^ 16)
    (hcfg : (SignerMap.fromU16 v).getConfig = some cfg)
    (hsig : sig.length = cfg.sigLength)
    (hown : own.length = cfg.pubLength)
    (htgt : tgt = [] ∨ tgt.length = 32)
    (hanc : anc = [] ∨ anc.length = 32)
    (hnt : nt < 2 ^ 64) (hntb : ntb < 2 ^ 64)
    (htb : tagBytes.length = ntb) :
    BundlrTx.fromInfoBytes
      (le16 v ++ sig ++ own ++ presenceEnc tgt ++ presenceEnc anc
        ++ le64 nt ++ le64 ntb ++ tagBytes ++ dataB)
    = PResult.bind (if 0 < ntb then liftE (decodeTags tagBytes) else .ok []) (fun tags =>
        if nt ≠ tags.length then .err .invalidTagEncoding
        else .ok (⟨SignerMap.fromU16 v, sig, own, tgt, anc, tags, .none⟩,
          2 + cfg.sigLength + cfg.pubLength + 1 + tgt.length + 1 + anc.length + 16 + ntb)) := by
  set buf := le16 v ++ sig ++ own ++ presenceEnc tgt ++ presenceEnc anc
    ++ le64 nt ++ le64 ntb ++ tagBytes ++ dataB with hbuf
  have e1 : sliceR buf 0 2 = .ok (le16 v) :=
    sliceR_exact buf [] (le16 v)
      (sig ++ (own ++ (presenceEnc tgt ++ (presenceEnc anc
        ++ (le64 nt ++ (le64 ntb ++ (tagBytes ++ dataB)))))))
      0 2 (by rw [hbuf]; simp [List.append_assoc]) (by simp) (by simp)
  have e2 : sliceR buf 2 (2 + cfg.sigLength) = .ok sig :=
    sliceR_exact buf (le16 v) sig
      (own ++ (presenceEnc tgt ++ (presenceEnc anc
        ++ (le64 nt ++ (le64 ntb ++ (tagBytes ++ dataB))))))
      2 (2 + cfg.sigLength) (by rw [hbuf]; simp [List.append_assoc]) (by simp) (by simp [hsig])
  have e3 : sliceR buf (2 + cfg.sigLength) (2 + cfg.sigLength + cfg.pubLength) = .ok own :=
    sliceR_exact buf (le16 v ++ sig) own
      (presenceEnc tgt ++ (presenceEnc anc ++ (le64 nt ++ (le64 ntb ++ (tagBytes ++ dataB)))))
      (2 + cfg.sigLength) (2 + cfg.sigLength + cfg.pubLength)
      (by rw [hbuf]; simp [List.append_assoc]) (by simp [hsig]) (by simp [hsig, hown])
  have e6 : sliceR buf (2 + cfg.sigLength + cfg.pubLength + 1 + tgt.length + 1 + anc.length)
      (2 + cfg.sigLength + cfg.pubLength + 1 + tgt.length + 1 + anc.length + 8) = .ok (le64 nt) :=
    sliceR_exact buf (le16 v ++ sig ++ own ++ presenceEnc tgt ++ presenceEnc anc) (le64 nt)
      (le64 ntb ++ (tagBytes ++ dataB)) _ _
      (by rw [hbuf]; simp [List.append_assoc])
      (by simp [hsig, hown, presenceEnc_length]; omega)
      (by simp [hsig, hown, presenceEnc_length]; omega)
  have e7 : sliceR buf (2 + cfg.sigLength + cfg.pubLength + 1 + tgt.length + 1 + anc.length + 8)
      (2 + cfg.sigLength + cfg.pubLength + 1 + tgt.length + 1 + anc.length + 16)
      = .ok (le64 ntb) :=
    sliceR_exact buf (le16 v ++ sig ++ own ++ presenceEnc tgt ++ presenceEnc anc ++ le64 nt)
      (le64 ntb) (tagBytes ++ dataB) _ _
      (by rw [hbuf]; simp [List.append_assoc])
      (by simp [hsig, hown, presenceEnc_length]; omega)
      (by simp [hsig, hown, presenceEnc_length]; omega)
  have e8 : sliceR buf (2 + cfg.sigLength + cfg.pubLength + 1 + tgt.length + 1 + anc.length + 16)
      (2 + cfg.sigLength + cfg.pubLength + 1 + tgt.length + 1 + anc.length + 16 + ntb)
      = .ok tagBytes :=
    sliceR_exact buf
      (le16 v ++ sig ++ own ++ presenceEnc tgt ++ presenceEnc anc ++ le64 nt ++ le64 ntb)
      tagBytes dataB _ _
      (by rw [hbuf]; simp [List.append_assoc])
      (by simp [hsig, hown, presenceEnc_length]; omega)
      (by simp [hsig, hown, presenceEnc_length, htb]; omega)
  simp only [BundlrTx.fromInfoBytes]
  rw [e1]
  simp only [PResult.bind_ok]
  rw [readU16_le16 v hv]
  simp only [SignerMap.getConfigP, hcfg, PResult.bind_ok]
  rw [e2]
  simp only [PResult.bind_ok]
  rw [e3]
  simp only [PResult.bind_ok]
  rw [parsePresence_step buf (le16 v ++ sig ++ own) tgt
    (presenceEnc anc ++ (le64 nt ++ (le64 ntb ++ (tagBytes ++ dataB))))
    (2 + cfg.sigLength + cfg.pubLength) htgt
    (by rw [hbuf]; simp [List.append_assoc])
    (by simp [hsig, hown] <;> omega)]
  rw [parsePresence_step buf (le16 v ++ sig ++ own ++ presenceEnc tgt) anc
    (le64 nt ++ (le64 ntb ++ (tagBytes ++ dataB)))
    (2 + cfg.sigLength + cfg.pubLength + 1 + tgt.length) hanc
    (by rw [hbuf]; simp [List.append_assoc])
    (by simp [hsig, hown, presenceEnc_length] <;> omega)]
  rw [e6]
  simp only [PResult.bind_ok]
  rw [readU64_le64 nt hnt]
  rw [e7]
  simp only [PResult.bind_ok]
  rw [readU64_le64 ntb hntb]
  rw [e8]
  simp only [PResult.bind_ok]

theorem getConfig_of_ne_none (s : SignerMap) (h : s ≠ .none) :
    s.getConfig = some (s.getConfig.getD ⟨0, 0, ""⟩) := by
  cases s <;> simp [SignerMap.getConfig] at h ⊢

theorem asU16_lt (s : SignerMap) : s.asU16 < 2 ^ 16 := by
  cases s <;> simp [SignerMap.asU16]

theorem avroEncodeTags_length_pos (tags : List Tag) : 0 < (avroEncodeTags tags).length := by
  simp [avroEncodeTags, encodeLong_zero]

theorem asBytes_eval (st : SignerMap) (sg ow tg an : List UInt8) (tgs : List Tag)
    (d : List UInt8) (cfg : Config) (hsgn : sg ≠ []) (hst : st ≠ SignerMap.none)
    (hcfg : st.getConfig = some cfg) :
    BundlrTx.asBytes ⟨st, sg, ow, tg, an, tgs, .bytes d⟩
      = .ok (le16 st.asU16 ++ sg ++ ow ++ (if tg.isEmpty then [0] else [1]) ++ tg
        ++ (if an.isEmpty then [0] else [1]) ++ an
        ++ le64 tgs.length
        ++ le64 (if tgs.isEmpty then ([] : List UInt8) else avroEncodeTags tgs).length
        ++ (if tgs.isEmpty then [] else avroEncodeTags tgs) ++ d) := by
  have hsigned : BundlrTx.isSigned ⟨st, sg, ow, tg, an, tgs, .bytes d⟩ = true := by
    simp [BundlrTx.isSigned, hsgn, hst]
  by_cases he : tgs.isEmpty <;>
    simp [BundlrTx.asBytes, hsigned, he, SignerMap.getConfigP, hcfg, encodeTags, liftE]

theorem roundtrip_parse_serialize (tx : BundlrTx) (h : WellFormed tx) :
    ∃ bs, tx.asBytes = .ok bs ∧ BundlrTx.fromBytes bs = .ok tx := by
  obtain ⟨st, sg, ow, tg, an, tgs, dt⟩ := tx
  obtain ⟨hst, hfrom, hsig, hsgn, hown, htgt, hanc, hwf, hcount, henc, hdb⟩ := h
  cases dt with
  | none => simp [Data.isBytes] at hdb
  | stream s => simp [Data.isBytes] at hdb
  | bytes d =>
  obtain ⟨cfg, hcfg⟩ : ∃ c, st.getConfig = some c := ⟨_, getConfig_of_ne_none st hst⟩
  simp only [hcfg, Option.getD_some] at hsig hown
  have hA := asBytes_eval st sg ow tg an tgs d cfg hsgn hst hcfg
  set encVal := (if tgs.isEmpty then ([] : List UInt8) else avroEncodeTags tgs) with hEnc
  refine ⟨_, hA, ?_⟩
  have hv := asU16_lt st
  have hcfg2 : (SignerMap.fromU16 st.asU16).getConfig = some cfg := by rw [hfrom]; exact hcfg
  have hntb : encVal.length < 2 ^ 64 := by
    by_cases he : tgs.isEmpty
    · simp [hEnc, he]
    · simpa [hEnc, he] using henc
  have hnt : tgs.length < 2 ^ 64 :=
    lt_of_le_of_lt hcount (by norm_num [maxAllocationBytes])
  have hshape : le16 (SignerMap.asU16 st) ++ sg ++ ow ++ (if tg.isEmpty then [0] else [1]) ++ tg
      ++ (if an.isEmpty then [0] else [1]) ++ an ++ le64 tgs.length ++ le64 encVal.length
      ++ encVal ++ d
    = le16 (SignerMap.asU16 st) ++ sg ++ ow ++ presenceEnc tg ++ presenceEnc an
      ++ le64 tgs.length ++ le64 encVal.length ++ encVal ++ d := by
    simp [presenceEnc, List.append_assoc]
  simp only [BundlrTx.fromBytes]
  rw [hshape]
  rw [fromInfoBytes_layout (SignerMap.asU16 st) cfg sg ow tg an encVal d
    tgs.length encVal.length hv hcfg2 hsig hown htgt hanc hnt hntb rfl]
  have htags : (if 0 < encVal.length then liftE (decodeTags encVal) else .ok [])
      = PResult.ok tgs := by
    by_cases he : tgs.isEmpty
    · have hnil : tgs = [] := List.isEmpty_iff.mp he
      subst hnil
      simp [hEnc]
    · have hev : encVal = avroEncodeTags tgs := by simp [hEnc, he]
      rw [hev, if_pos (avroEncodeTags_length_pos tgs), decodeTags_encode tgs hwf hcount]
      rfl
  rw [htags]
  simp only [PResult.bind_ok]
  rw [if_neg (by simp)]
  simp only [PResult.bind_ok]
  have hslice : sliceR
      (le16 (SignerMap.asU16 st) ++ sg ++ ow ++ presenceEnc tg ++ presenceEnc an
        ++ le64 tgs.length ++ le64 encVal.length ++ encVal ++ d)
      (2 + cfg.sigLength + cfg.pubLength + 1 + tg.length + 1 + an.length + 16 + encVal.length)
      (le16 (SignerMap.asU16 st) ++ sg ++ ow ++ presenceEnc tg ++ presenceEnc an
        ++ le64 tgs.length ++ le64 encVal.length ++ encVal ++ d).length
      = .ok d :=
    sliceR_exact _
      (le16 (SignerMap.asU16 st) ++ sg ++ ow ++ presenceEnc tg ++ presenceEnc an
        ++ le64 tgs.length ++ le64 encVal.length ++ encVal)
      d [] _ _
      (by simp [List.append_assoc])
      (by simp [presenceEnc_length, hsig, hown]; omega)
      (by simp [presenceEnc_length, hsig, hown]; omega)
  rw [hslice]
  simp only [PResult.bind_ok]
  rw [show SignerMap.fromU16 st.asU16 = st from hfrom]

theorem collectStream_map_ok (chunks : List (List UInt8)) :
    collectStream (chunks.map StreamItem.ok) = .ok chunks.flatten := by
  induction chunks with
  | nil => rfl
  | cons c cs ih => simp [collectStream, ih]

theorem asBytes_ne_panicked (tx : BundlrTx) : tx.asBytes ≠ .panicked := by
  obtain ⟨st, sg, ow, tg, an, tgs, dt⟩ := tx
  by_cases hs : BundlrTx.isSigned ⟨st, sg, ow, tg, an, tgs, dt⟩
  · cases dt with
    | none => simp [BundlrTx.asBytes, hs]
    | stream s => simp [BundlrTx.asBytes, hs]
    | bytes d =>
      have hst : st ≠ SignerMap.none := by
        simp [BundlrTx.isSigned] at hs
        exact hs.2
      obtain ⟨cfg, hcfg⟩ : ∃ c, st.getConfig = some c := ⟨_, getConfig_of_ne_none st hst⟩
      by_cases he : tgs.isEmpty <;>
        simp [BundlrTx.asBytes, hs, he, SignerMap.getConfigP, hcfg, encodeTags, liftE]
  · simp [BundlrTx.asBytes, hs]

theorem multiAptosVerifyLoop_no_true {PK SIG : Type}
    (pkF : List UInt8 → Except Unit PK) (sigF : List UInt8 → Except Unit SIG)
    (edV : PK → List UInt8 → SIG → Bool) (pk message signatures encodeBitmap : List UInt8) :
    ∀ idx : List Nat,
      multiAptosVerifyLoop pkF sigF edV pk message signatures encodeBitmap idx false
        ≠ .ok true := by
  intro idx
  induction idx with
  | nil => simp [multiAptosVerifyLoop]
  | cons i rest ih =>
    simp only [multiAptosVerifyLoop]
    cases hbm : encodeBitmap[i / 8]? with
    | none => simp
    | some bb =>
      simp only []
      by_cases hinc : bb.toNat &&& (128 >>> (i - i / 8 * 8)) ≠ 0
      · rw [if_pos hinc]
        cases h1 : sliceR signatures (i * 64) ((i + 1) * 64) with
        | ok sigSlice =>
          simp only [PResult.bind_ok]
          cases h2 : sliceR pk (i * 32) ((i + 1) * 32) with
          | ok pubSlc =>
            simp only [PResult.bind_ok]
            cases hpk : pkF pubSlc with
            | error e => simp
            | ok publicKey =>
              cases hsg : sigF sigSlice with
              | error e => simp
              | ok sg =>
                simp only []
                rw [show (if edV publicKey message sg then false else false) = false
                  from by by_cases hvv : edV publicKey message sg <;> simp [hvv]]
                exact ih
          | err e => simp
          | panicked => simp
        | err e => simp
        | panicked => simp
      · rw [if_neg hinc]
        exact ih

/-- C3: for every finite byte payload and every way of splitting it into
a sequence of chunks, `deep_hash` on a `Stream` leaf yielding those
chunks, `deep_hash` on an in-memory `Chunk` leaf holding the
concatenated payload, and `deep_hash_sync` on that same `Chunk` leaf all
return the same digest (for every SHA-384 primitive `sha`). -/
theorem C3_deep_hash_streaming_equivalence (sha : List UInt8 → List UInt8)
    (chunks : List (List UInt8)) :
    deepHash sha (.stream (chunks.map StreamItem.ok))
      = .ok (sha (sha (BLOB_AS_BUFFER ++ asciiDec chunks.flatten.length) ++ sha chunks.flatten))
    ∧ deepHash sha (.chunk chunks.flatten)
      = .ok (sha (sha (BLOB_AS_BUFFER ++ asciiDec chunks.flatten.length) ++ sha chunks.flatten))
    ∧ deepHashSync sha (.chunk chunks.flatten)
      = .ok (sha (sha (BLOB_AS_BUFFER ++ asciiDec chunks.flatten.length) ++ sha chunks.flatten)) := by
  refine ⟨?_, ?_, ?_⟩
  · simp [deepHash, collectStream_map_ok chunks]
  · simp [deepHash]
  · simp [deepHashSync]

/-- C4: the deep-hash of an in-memory leaf is
`SHA384(SHA384("blob" ++ ascii-decimal(len b)) ++ SHA384 b)`; in
particular on `b"Hello, Bundlr!"` the inner tag is `"blob14"`. -/
theorem C4_deep_hash_leaf (sha : List UInt8 → List UInt8) :
    (∀ b : List UInt8,
      deepHash sha (.chunk b) = .ok (sha (sha (BLOB_AS_BUFFER ++ asciiDec b.length) ++ sha b)))
    ∧ deepHash sha (.chunk helloBundlr) = .ok (sha (sha blob14 ++ sha helloBundlr)) := by
  constructor
  · intro b
    simp [deepHash]
  · simp only [deepHash]
    rw [show BLOB_AS_BUFFER ++ asciiDec helloBundlr.length = blob14 from by decide]

/-- C7 counterexample: `deep_hash_sync` on a streamed leaf does not
return the `Unsupported` error — it panics
(`panic!("Streaming is not supported for sync")`), shown here on the
empty stream with the identity in place of SHA-384. -/
theorem C7_counterexample_sync_stream_panics :
    deepHashSync (fun l => l) (.stream []) = .panicked
      ∧ ∀ s : String, deepHashSync (fun l => l) (.stream [])
          ≠ .err (.unsupported s) := by
  constructor
  · simp [deepHashSync]
  · intro s
    simp [deepHashSync]

/-- C7 amended: for every streamed leaf input, the synchronous deep-hash
variant panics with "Streaming is not supported for sync" instead of
returning an error. -/
theorem C7_amended_sync_stream_panics_always (sha : List UInt8 → List UInt8)
    (s : List StreamItem) :
    deepHashSync sha (.stream s) = .panicked := by
  simp [deepHashSync]

/-- C9: the `SIG_TYPE` constant of `TypedEthereumSigner` is
`SignerMap::Ethereum` (tag 3), not `SignerMap::TypedEthereum` (tag 7),
while its signature/public-key lengths 65/42 do match the registry row
for tag 7. -/
theorem C9_typed_ethereum_constants :
    TypedEthereumSigner.sigType = SignerMap.ethereum
    ∧ SignerMap.asU16 TypedEthereumSigner.sigType = 3
    ∧ TypedEthereumSigner.sigType ≠ SignerMap.typedEthereum
    ∧ TypedEthereumSigner.sigLength = 65
    ∧ TypedEthereumSigner.pubLength = 42
    ∧ SignerMap.getConfig SignerMap.typedEthereum = some ⟨65, 42, "typedEthereum"⟩ := by
  refine ⟨rfl, rfl, by decide, rfl, rfl, rfl⟩

theorem sliceR_replicate (x : UInt8) (n a b : Nat) (h1 : a ≤ b) (h2 : b ≤ n) :
    sliceR (List.replicate n x) a b = .ok (List.replicate (b - a) x) := by
  unfold sliceR
  rw [if_pos (by simp; omega)]
  have hmin : min (b - a) (n - a) = b - a := by omega
  rw [List.drop_replicate, List.take_replicate, hmin]

theorem sliceR_ne_err (l : List UInt8) (a b : Nat) (e : BundlrError) :
    sliceR l a b ≠ .err e := by
  unfold sliceR
  split <;> simp

theorem multiAptosVerifyLoop_no_invalid {PK SIG : Type}
    (pkF : List UInt8 → Except Unit PK) (sigF : List UInt8 → Except Unit SIG)
    (edV : PK → List UInt8 → SIG → Bool) (pk message signatures encodeBitmap : List UInt8) :
    ∀ (idx : List Nat) (b : Bool),
      multiAptosVerifyLoop pkF sigF edV pk message signatures encodeBitmap idx b
        ≠ .err .invalidSignature := by
  intro idx
  induction idx with
  | nil => intro b; simp [multiAptosVerifyLoop]
  | cons i rest ih =>
    intro b
    simp only [multiAptosVerifyLoop]
    cases hbm : encodeBitmap[i / 8]? with
    | none => simp
    | some bb =>
      simp only []
      by_cases hinc : bb.toNat &&& (128 >>> (i - i / 8 * 8)) ≠ 0
      · rw [if_pos hinc]
        cases h1 : sliceR signatures (i * 64) ((i + 1) * 64) with
        | ok sigSlice =>
          simp only [PResult.bind_ok]
          cases h2 : sliceR pk (i * 32) ((i + 1) * 32) with
          | ok pubSlc =>
            simp only [PResult.bind_ok]
            cases hpk : pkF pubSlc with
            | error e => simp
            | ok publicKey =>
              cases hsg : sigF sigSlice with
              | error e => simp
              | ok sg => exact ih _
          | err e => exact absurd h2 (sliceR_ne_err _ _ _ _)
          | panicked => simp
        | err e => exact absurd h1 (sliceR_ne_err _ _ _ _)
        | panicked => simp
      · rw [if_neg hinc]
        exact ih _

/-- C1: `MultiAptosSigner::verify` does not reject failing signatures.
First conjunct: with an ed25519 verifier that fails on every input and a
bitmap including slot 0, `verify` still returns `Ok(())`.  Second
conjunct: for every choice of the ed25519 primitives and every input,
`verify` never returns `InvalidSignature` at all, because the failing
branch of the match executes `one_false = false` instead of
`one_false = true`. -/
theorem C1_multi_aptos_verify_never_rejects :
    MultiAptosSigner.verify (fun _ => (Except.ok () : Except Unit Unit))
      (fun _ => (Except.ok () : Except Unit Unit))
      (fun _ _ _ => false) c1PubKey [] c1Signature = .ok ()
    ∧ ∀ {PK SIG : Type} (pkF : List UInt8 → Except Unit PK)
        (sigF : List UInt8 → Except Unit SIG) (edV : PK → List UInt8 → SIG → Bool)
        (pk message signature : List UInt8),
        MultiAptosSigner.verify pkF sigF edV pk message signature
          ≠ .err .invalidSignature := by
  constructor
  · have hb4 : ∀ i : Nat, i < 32 → ∃ bb, (([128, 0, 0, 0] : List UInt8)[i / 8]?) = some bb := by
      intro i hi
      have h4 : i / 8 < ([128, 0, 0, 0] : List UInt8).length := by
        simp
        omega
      exact ⟨_, List.getElem?_eq_getElem h4⟩
    have hexists : ∀ (idx : List Nat) (b : Bool), (∀ i ∈ idx, i < 32) →
        ∃ bb, multiAptosVerifyLoop (fun _ => (Except.ok () : Except Unit Unit))
          (fun _ => (Except.ok () : Except Unit Unit))
          (fun _ _ _ => false) (List.replicate 1025 0) [] (List.replicate 2048 0) [128, 0, 0, 0]
          idx b = .ok bb := by
      intro idx
      induction idx with
      | nil => intro b h; exact ⟨b, rfl⟩
      | cons i rest ih =>
        intro b h
        have hi : i < 32 := h i (List.mem_cons_self i rest)
        have hrest : ∀ j ∈ rest, j < 32 := fun j hj => h j (List.mem_cons_of_mem i hj)
        obtain ⟨bb, hbb⟩ := hb4 i hi
        simp only [multiAptosVerifyLoop, hbb]
        by_cases hinc : bb.toNat &&& (128 >>> (i - i / 8 * 8)) ≠ 0
        · rw [if_pos hinc]
          rw [sliceR_replicate (0 : UInt8) 2048 (i * 64) ((i + 1) * 64) (by omega) (by omega)]
          simp only [PResult.bind_ok]
          rw [sliceR_replicate (0 : UInt8) 1025 (i * 32) ((i + 1) * 32) (by omega) (by omega)]
          simp only [PResult.bind_ok]
          exact ih false hrest
        · rw [if_neg hinc]
          exact ih b hrest
    have hs1 : sliceR c1Signature 0 2048 = .ok (List.replicate 2048 0) :=
      sliceR_exact c1Signature [] (List.replicate 2048 0) [128, 0, 0, 0] 0 2048
        (by simp [c1Signature]) (by simp) (by simp)
    have hs2 : sliceR c1Signature 2048 c1Signature.length = .ok [128, 0, 0, 0] :=
      sliceR_exact c1Signature (List.replicate 2048 0) [128, 0, 0, 0] [] 2048 c1Signature.length
        (by simp [c1Signature]) (by simp) (by simp [c1Signature])
    have hoff : (64 * 32 + 4 - 4 : Nat) = 2048 := by norm_num
    rw [show c1PubKey = List.replicate 1025 0 from rfl]
    unfold MultiAptosSigner.verify
    simp only [hoff, hs1, hs2, PResult.bind_ok]
    obtain ⟨bb, hbb⟩ := hexists (List.range 32) false (fun i hi => List.mem_range.mp hi)
    rw [hbb]
    simp only [PResult.bind_ok]
    have hbfalse : bb = false := by
      cases bb with
      | false => rfl
      | true => exact absurd hbb (multiAptosVerifyLoop_no_true _ _ _ _ _ _ _ _)
    subst hbfalse
    rfl
  · intro PK SIG pkF sigF edV pk message signature
    have hoff2 : (64 * 32 + 4 - 4 : Nat) = 2048 := by norm_num
    unfold MultiAptosSigner.verify
    simp only [hoff2]
    cases h1 : sliceR signature 0 2048 with
    | ok signatures =>
      simp only [PResult.bind_ok]
      cases h2 : sliceR signature 2048 signature.length with
      | ok encodeBitmap =>
        simp only [PResult.bind_ok]
        cases h3 : multiAptosVerifyLoop pkF sigF edV pk message signatures encodeBitmap
            (List.range 32) false with
        | ok oneFalse =>
          simp only [PResult.bind_ok]
          cases oneFalse with
          | true => exact absurd h3 (multiAptosVerifyLoop_no_true pkF sigF edV pk message
              signatures encodeBitmap (List.range 32))
          | false => simp
        | err e =>
          have hne : e ≠ BundlrError.invalidSignature := by
            intro hh
            subst hh
            exact multiAptosVerifyLoop_no_invalid pkF sigF edV pk message signatures
              encodeBitmap (List.range 32) false h3
          simp [hne]
        | panicked => simp
      | err e => exact absurd h2 (sliceR_ne_err _ _ _ _)
      | panicked => simp
    | err e => exact absurd h1 (sliceR_ne_err _ _ _ _)
    | panicked => simp

/-- C2: serialization is canonical.  For every well-formed item,
`as_bytes` succeeds and `from_bytes` on its output returns the item
back field-for-field (so re-serializing the parsed item reproduces the
identical byte buffer); the target, anchor and tags may each be
empty. -/
theorem C2_item_roundtrip (tx : BundlrTx) (h : WellFormed tx) :
    ∃ bs, tx.asBytes = .ok bs ∧ BundlrTx.fromBytes bs = .ok tx :=
  roundtrip_parse_serialize tx h

theorem C2_item_roundtrip_witness :
    WellFormed c2tx ∧ ∃ bs, c2tx.asBytes = .ok bs ∧ BundlrTx.fromBytes bs = .ok c2tx :=
  ⟨by decide, C2_item_roundtrip c2tx (by decide)⟩

/-- C5 counterexample: a buffer whose leading little-endian u16 tag is
0 (unknown) makes `from_bytes` panic — the registry lookup
`SignerMap::None.get_config()` hits the `panic!` arm — rather than
return `InvalidSignerType`. -/
theorem C5_counterexample_unknown_tag_panics :
    BundlrTx.fromBytes [0, 0] = .panicked
      ∧ BundlrTx.fromBytes [0, 0] ≠ .err .invalidSignerType := by
  decide

/-- C5 amended: for every buffer of length ≥ 2 whose leading
little-endian u16 is not a known tag (so `SignerMap::from` yields
`None`), `from_bytes` panics instead of returning `InvalidSignerType`. -/
theorem C5_amended_unknown_tag_panics (b0 b1 : UInt8) (rest : List UInt8)
    (h : SignerMap.fromU16 (readU16LE [b0, b1]) = .none) :
    BundlrTx.fromBytes (b0 :: b1 :: rest) = .panicked := by
  have e : sliceR (b0 :: b1 :: rest) 0 2 = .ok [b0, b1] := by
    unfold sliceR
    rw [if_pos (by simp)]
    rfl
  simp only [BundlrTx.fromBytes, BundlrTx.fromInfoBytes, e, PResult.bind_ok, h,
    SignerMap.getConfigP, SignerMap.getConfig, PResult.bind_panicked]

theorem C5_amended_unknown_tag_panics_witness :
    SignerMap.fromU16 (readU16LE [0, 0]) = .none
      ∧ BundlrTx.fromBytes [0, 0] = .panicked :=
  ⟨by decide, C5_amended_unknown_tag_panics 0 0 [] (by decide)⟩

/-- C6 counterexample: parsing is not panic-free — `from_bytes` on the
empty buffer panics at the slice `&buffer[0..2]`. -/
theorem C6_counterexample_parser_panics_on_empty :
    BundlrTx.fromBytes [] = .panicked := by
  decide

/-- C6 amended: the serializer `as_bytes` is total — it returns a
`Result` on every item and never panics — but the parser is not:
`from_bytes` panics on truncated input such as the empty buffer. -/
theorem C6_amended_serializer_total :
    (∀ tx : BundlrTx, tx.asBytes ≠ .panicked)
      ∧ BundlrTx.fromBytes [] = .panicked := by
  exact ⟨asBytes_ne_panicked, by decide⟩

/-- C8 counterexample: `num_tag_bytes > 0` with `num_tags == 0` is NOT
rejected: the tag bytes `[0x00]` decode to the empty tag list, the
count check `0 == 0` passes and the parse succeeds. -/
theorem C8_counterexample_zero_count_block_accepted :
    BundlrTx.fromBytes c8buf
      = .ok ⟨.eD25519, List.replicate 64 0, List.replicate 32 0, [], [], [], .bytes []⟩
    ∧ BundlrTx.fromBytes c8buf ≠ .err .invalidTagEncoding := by
  decide

/-- C8 amended: the surviving direction — every parse that reaches the
tag counters with `num_tag_bytes == 0` and `num_tags > 0` is rejected
with `InvalidTagEncoding`.  (The converse direction is refuted by the
counterexample: `num_tag_bytes > 0` with `num_tags == 0` is accepted
whenever the tag bytes decode to an empty array.) -/
theorem C8_amended_zero_bytes_nonzero_count_rejected (v : Nat) (cfg : Config)
    (sig own tgt anc dataB : List UInt8) (nt : Nat)
    (hv : v < 2 ^ 16) (hcfg : (SignerMap.fromU16 v).getConfig = some cfg)
    (hsig : sig.length = cfg.sigLength) (hown : own.length = cfg.pubLength)
    (htgt : tgt = [] ∨ tgt.length = 32) (hanc : anc = [] ∨ anc.length = 32)
    (hnt : nt < 2 ^ 64) (hpos : 0 < nt) :
    BundlrTx.fromBytes (le16 v ++ sig ++ own ++ presenceEnc tgt ++ presenceEnc anc
      ++ le64 nt ++ le64 0 ++ dataB) = .err .invalidTagEncoding := by
  have hshape : le16 v ++ sig ++ own ++ presenceEnc tgt ++ presenceEnc anc
      ++ le64 nt ++ le64 0 ++ dataB
    = le16 v ++ sig ++ own ++ presenceEnc tgt ++ presenceEnc anc
      ++ le64 nt ++ le64 0 ++ ([] : List UInt8) ++ dataB := by
    simp
  simp only [BundlrTx.fromBytes]
  rw [hshape, fromInfoBytes_layout v cfg sig own tgt anc [] dataB nt 0 hv hcfg hsig hown
    htgt hanc hnt (by norm_num) rfl]
  rw [if_neg (by omega)]
  simp only [PResult.bind_ok, List.length_nil]
  rw [if_pos (by omega)]
  rfl

theorem C8_amended_witness :
    BundlrTx.fromBytes (le16 2 ++ List.replicate 64 0 ++ List.replicate 32 0 ++ presenceEnc []
      ++ presenceEnc [] ++ le64 1 ++ le64 0 ++ []) = .err .invalidTagEncoding :=
  C8_amended_zero_bytes_nonzero_count_rejected 2 ⟨64, 32, "ed25519"⟩ (List.replicate 64 0)
    (List.replicate 32 0) [] [] [] 1 (by norm_num) (by decide) (by simp) (by simp)
    (Or.inl rfl) (Or.inl rfl) (by norm_num) (by norm_num)

/-- C10: `read_offset` returns a buffer of exactly `length` bytes no
matter where the file ends: position `i` of the result holds the file
byte at `offset + i` when that exists and zero otherwise (the zero-fill
survives the single, count-ignored `read`); consequently the bundle
fixed 4096-byte probe read of the verifier yields 4096 bytes even for items
shorter than that. -/
theorem C10_read_offset_zero_fill (file : List UInt8) (offset length : Nat) :
    (readOffset file offset length).length = length
    ∧ (∀ i : Nat, (readOffset file offset length).getD i 0
        = if i < length then
            (if offset + i < file.length then file.getD (offset + i) 0 else 0)
          else 0)
    ∧ (verifyProbeRead file offset).length = 4096 := by
  refine ⟨?_, ?_, ?_⟩
  · simp [readOffset]
  · intro i
    simp only [readOffset, List.getD_eq_getElem?_getD]
    by_cases h1 : i < ((file.drop offset).take length).length
    · rw [List.getElem?_append_left h1]
      have hi1 : i < length := by
        simp at h1
        omega
      have hi2 : offset + i < file.length := by
        simp at h1
        omega
      rw [if_pos hi1, if_pos hi2, List.getElem?_take_of_lt hi1, List.getElem?_drop]
    · rw [List.getElem?_append_right (by omega)]
      by_cases h2 : i < length
      · rw [if_pos h2]
        have hz : ¬ offset + i < file.length := by
          simp at h1
          omega
        rw [if_neg hz]
        simp only [List.getElem?_replicate]
        split <;> rfl
      · rw [if_neg h2]
        rw [List.getElem?_eq_none (by simp; omega)]
        rfl
  · simp [verifyProbeRead, readOffset]
